import Mathlib

/-!
Verification of the register/field layer of `klippy/extras/tmc2130.py`
(TMC2130 stepper-driver configuration, field packing, pipelined SPI reads,
and the sensorless-homing endstop overlay).

Conventions of the embedding:
* Python integers are arbitrary precision; register words, masks and field
  values are nonnegative throughout the code under study, so they are
  embedded as `ℕ`.  The two operations the source applies to a negative
  operand are rewritten with the standard two's-complement identities,
  which hold for unbounded integers:
  - `word & ~mask`  (with `word, mask ≥ 0`) clears in `word` exactly the
    bits of `mask`; since the bits of `word &&& mask` form a subset of the
    bits of `word`, this equals `word ^^^ (word &&& mask)` (`andNot` below);
  - `mask & -mask` (with `mask ≥ 0`) equals `mask & ~(mask - 1)` because
    `-mask = ~(mask - 1)` in two's complement, hence `andNot mask (mask-1)`.
* Python `dict`s are embedded as association lists with in-place overwrite
  on insertion (`dinsert`) and first-match lookup (`dlookup`); `d[k]` on a
  missing key raises `KeyError`, embedded as an `Option` result.
* Python float arithmetic in the current derivation is embedded as exact
  rational arithmetic, with the double `math.sqrt(2.)` abstracted as a
  parameter `s2` constrained to a small interval around `√2`; `int(x)`
  truncates toward zero (`pyint`).
* Methods that may mutate `self` are embedded in state-passing style,
  returning the updated object alongside their result.
-/

namespace Tmc2130

/-- Lookup in a Python dict modelled as an association list (first match). -/
def dlookup {β : Type} (k : String) : List (String × β) → Option β
  | [] => none
  | (k2, v) :: rest => if k = k2 then some v else dlookup k rest

/-- Insertion `d[k] = v` in a Python dict modelled as an association list:
overwrite in place if the key is present, else append. -/
def dinsert {β : Type} (k : String) (v : β) : List (String × β) → List (String × β)
  | [] => [(k, v)]
  | (k2, v2) :: rest => if k = k2 then (k, v) :: rest else (k2, v2) :: dinsert k v rest

/-- Python `word & ~mask` for nonnegative `word`, `mask`: clear in `word`
the bits of `mask`.  The bits of `word &&& mask` are a subset of the bits
of `word`, so xor-ing them away is exactly that. -/
def andNot (word mask : ℕ) : ℕ := word ^^^ (word &&& mask)

/-- Python `mask & -mask` for nonnegative `mask` (the lowest set bit of
`mask`, or `0` for `mask = 0`): `-mask = ~(mask - 1)` in two's complement,
so this is `mask & ~(mask - 1)`. -/
def lowbit (mask : ℕ) : ℕ := andNot mask (mask - 1)

/-- Python `int.bit_length()` on a nonnegative int: number of binary digits,
`0` for `0`.  Written with explicit fuel (the number itself suffices) so
that it evaluates by kernel reduction. -/
def bitLenAux : ℕ → ℕ → ℕ
  | 0, _ => 0
  | fuel + 1, n => if n = 0 then 0 else bitLenAux fuel (n / 2) + 1

/-- Python `n.bit_length()` for `n ≥ 0`. -/
def bit_length (n : ℕ) : ℕ := bitLenAux n n

/-- Source `ffs(mask)`: `(mask & -mask).bit_length() - 1`, the position of
the first set bit of `mask`; `-1` for `mask = 0` (where the source's
subsequent shift by it would raise). -/
def ffs (mask : ℕ) : ℤ := (bit_length (lowbit mask) : ℤ) - 1

/-- GCONF bit 2 (`1 << 2`), stealthChop enable, from the source header. -/
def GCONF_EN_PWM_MODE : ℕ := 1 <<< 2

/-- GCONF bit 8 (`1 << 8`), stall signal on DIAG1, from the source header. -/
def GCONF_DIAG1_STALL : ℕ := 1 <<< 8

/-- The state of a `FieldHelper` object: the static register → field → mask
table, the per-field formatter table, the register cache (`self.registers`,
a dict defaulting to `{}`), and the derived reverse map
`self.field_to_register`. -/
structure FieldHelper where
  all_fields : List (String × List (String × ℕ))
  field_formatters : List (String × (ℕ → String))
  registers : List (String × ℕ)
  field_to_register : List (String × String)

/-- The dict comprehension of `FieldHelper.__init__`:
`{ f: r for r, fields in self.all_fields.items() for f in fields }` —
later bindings silently overwrite earlier ones. -/
def field_to_register_of (all_fields : List (String × List (String × ℕ))) :
    List (String × String) :=
  all_fields.foldl (fun d rf => rf.2.foldl (fun d2 fm => dinsert fm.1 rf.1 d2) d) []

/-- Source `FieldHelper.__init__(all_fields, field_formatters={}, registers=None)`:
stores the tables, defaults a missing register cache to the empty dict, and
builds the reverse field → register map.  It performs no validation and
cannot fail. -/
def mkFieldHelper (all_fields : List (String × List (String × ℕ)))
    (field_formatters : List (String × (ℕ → String)))
    (registers : Option (List (String × ℕ))) : FieldHelper :=
  { all_fields := all_fields
    field_formatters := field_formatters
    registers := registers.getD []
    field_to_register := field_to_register_of all_fields }

/-- Source `FieldHelper.get_field(field_name, reg_value=None, reg_name=None)`.
Dict indexing (`self.field_to_register[...]`, `self.registers[...]`,
`self.all_fields[...][...]`) raises `KeyError` on a missing key, and the
shift by `ffs(mask)` raises on `mask = 0`; both are embedded as `none`.
The method assigns nothing, so the returned object is the receiver. -/
def get_field (fh : FieldHelper) (field_name : String) (reg_value : Option ℕ)
    (reg_name : Option String) : Option ℕ × FieldHelper :=
  let rn? := match reg_name with
    | some r => some r
    | none => dlookup field_name fh.field_to_register
  match rn? with
  | none => (none, fh)
  | some rn =>
    let rv? := match reg_value with
      | some v => some v
      | none => dlookup rn fh.registers
    match rv? with
    | none => (none, fh)
    | some rv =>
      match (dlookup rn fh.all_fields).bind (fun fl => dlookup field_name fl) with
      | none => (none, fh)
      | some mask =>
        if ffs mask < 0 then (none, fh)
        else (some ((rv &&& mask) >>> (ffs mask).toNat), fh)

/-- Source `FieldHelper.set_field(field_name, field_value, reg_value=None,
reg_name=None)`: a missing cache entry defaults to `0`
(`self.registers.get(reg_name, 0)`), the new word is
`(reg_value & ~mask) | ((field_value << ffs(mask)) & mask)`, and it is
stored back into `self.registers[reg_name]`. -/
def set_field (fh : FieldHelper) (field_name : String) (field_value : ℕ)
    (reg_value : Option ℕ) (reg_name : Option String) : Option (ℕ × FieldHelper) :=
  let rn? := match reg_name with
    | some r => some r
    | none => dlookup field_name fh.field_to_register
  match rn? with
  | none => none
  | some rn =>
    let rv := match reg_value with
      | some v => v
      | none => (dlookup rn fh.registers).getD 0
    match (dlookup rn fh.all_fields).bind (fun fl => dlookup field_name fl) with
    | none => none
    | some mask =>
      if ffs mask < 0 then none
      else
        let new_value := andNot rv mask ||| ((field_value <<< (ffs mask).toNat) &&& mask)
        some (new_value, { fh with registers := dinsert rn new_value fh.registers })

/-- External configuration source consumed by `set_config_field`, reduced to
the two accessors that method calls (name and default; the bounds passed to
`getint` are enforced by the external parser and do not change the value
seen here). -/
structure PrinterConfig where
  getboolean : String → ℕ → Bool
  getint : String → ℕ → ℕ

/-- Source `FieldHelper.set_config_field(config, field_name, default,
config_name=None)`: derives the field's maximum from its mask width, reads
a boolean option when the maximum is exactly 1 and a bounded integer
otherwise, and delegates to `set_field`. -/
def set_config_field (fh : FieldHelper) (config : PrinterConfig) (field_name : String)
    (default : ℕ) (config_name : Option String) : Option (ℕ × FieldHelper) :=
  let cn := config_name.getD ("driver_" ++ field_name.toUpper)
  match dlookup field_name fh.field_to_register with
  | none => none
  | some rn =>
    match (dlookup rn fh.all_fields).bind (fun fl => dlookup field_name fl) with
    | none => none
    | some mask =>
      if ffs mask < 0 then none
      else
        let maxval := mask >>> (ffs mask).toNat
        let val : ℕ :=
          if maxval = 1 then (config.getboolean cn default).toNat
          else config.getint cn default
        set_field fh field_name val none none

/-- Lexicographic order on `(mask, name)` tuples, as Python compares them
when sorting `reg_fields`. -/
def tupleLeB (a b : ℕ × String) : Bool :=
  decide (a.1 < b.1) || (decide (a.1 = b.1) && ! decide (b.2 < a.2))

/-- Ordered insertion for the embedding of Python `sorted`. -/
def insertSorted (x : ℕ × String) : List (ℕ × String) → List (ℕ × String)
  | [] => [x]
  | y :: ys => if tupleLeB x y then x :: y :: ys else y :: insertSorted x ys

/-- Python `sorted` on a list of `(mask, name)` tuples (insertion sort; the
comparator is a total order, so any sort agrees with Python's). -/
def sortPairs (l : List (ℕ × String)) : List (ℕ × String) :=
  l.foldr insertSorted []

/-- Python `"%08x" % value`: lowercase hexadecimal, zero-padded to at least
8 digits, no `0x` prefix. -/
def format08x (n : ℕ) : String :=
  let ds := Nat.toDigits 16 n
  String.mk (List.replicate (8 - ds.length) '0' ++ ds)

/-- Python `"%-11s" % s`: left-justify `s` in a field of width 11. -/
def padTo11 (s : String) : String :=
  s ++ String.mk (List.replicate (11 - s.length) ' ')

/-- The field loop of `pretty_format`: walk the sorted `(mask, field_name)`
pairs, decode each field value from `value`, format it with the per-field
formatter (default `str`), and keep `" name=sval"` entries whose formatted
value is neither empty nor `"0"`.  A zero mask makes the source raise on
`>> ffs(mask)`, embedded as `none`. -/
def pretty_format_loop (fh : FieldHelper) (value : ℕ) :
    List (ℕ × String) → Option (List String)
  | [] => some []
  | (mask, field_name) :: rest =>
    if ffs mask < 0 then none
    else
      let fval := (value &&& mask) >>> (ffs mask).toNat
      let sval := ((dlookup field_name fh.field_formatters).getD (fun n => toString n)) fval
      match pretty_format_loop fh value rest with
      | none => none
      | some tail =>
        some (if sval ≠ "" ∧ sval ≠ "0" then (" " ++ field_name ++ "=" ++ sval) :: tail
              else tail)

/-- Source `FieldHelper.pretty_format(reg_name, value)`: fields of the
register (default `{}` when the register is unknown), as `(mask, name)`
tuples, sorted ascending; the line is
`"%-11s %08x%s" % (reg_name + ":", value, "".join(fields))`.
The method assigns nothing, so the returned object is the receiver. -/
def pretty_format (fh : FieldHelper) (reg_name : String) (value : ℕ) :
    Option String × FieldHelper :=
  let reg_fields := (dlookup reg_name fh.all_fields).getD []
  let sorted := sortPairs (reg_fields.map (fun p => (p.2, p.1)))
  match pretty_format_loop fh value sorted with
  | none => (none, fh)
  | some fields =>
    (some (padTo11 (reg_name ++ ":") ++ " " ++ format08x value ++ String.join fields), fh)

/-- Python `int(x)`: truncation toward zero. -/
def pyint (q : ℚ) : ℤ := if q < 0 then ⌈q⌉ else ⌊q⌋

/-- Source `current_bits(current, sense_resistor, vsense_on)`.  Float
arithmetic is embedded exactly over `ℚ`, with the double `math.sqrt(2.)`
abstracted as the parameter `s2` (theorems constrain it to an interval
around `√2` containing the actual double).  The result is
`max(0, min(31, cs))`. -/
def current_bits (s2 : ℚ) (current sense_resistor : ℚ) (vsense_on : Bool) : ℤ :=
  let sr := sense_resistor + 0.020
  let vsense : ℚ := if vsense_on then 0.18 else 0.32
  let cs := pyint (32 * current * sr * s2 / vsense - 1 + 0.5)
  max 0 (min 31 cs)

/-- Source `get_config_current(config)` after the configuration reads:
`run_current ∈ (0, 2]`, `hold_current ∈ (0, 2]` (defaulting to
`run_current`), `sense_resistor > 0` (defaulting to `0.110`) are enforced
by the external parser and arrive here as arguments.  Compute irun/ihold at
low sensitivity; when both fall below 16, switch `vsense` on and recompute
both. -/
def get_config_current (s2 run_current hold_current sense_resistor : ℚ) :
    Bool × ℤ × ℤ :=
  let irun := current_bits s2 run_current sense_resistor false
  let ihold := current_bits s2 hold_current sense_resistor false
  if irun < 16 ∧ ihold < 16 then
    (true, current_bits s2 run_current sense_resistor true,
     current_bits s2 hold_current sense_resistor true)
  else
    (false, irun, ihold)

/-- State of the SPI transport: the ordered log of transmitted 5-byte
frames, and the full-duplex response returned by the bus for the i-th
exchange (an exchange of either kind shifts a response back; `spi_send`
discards it). -/
structure SpiBus where
  log : List (List ℕ)
  responder : ℕ → List ℕ

/-- Transport `spi_send(data)`: one full-duplex exchange whose response is
discarded. -/
def spi_send (s : SpiBus) (frame : List ℕ) : SpiBus :=
  { s with log := s.log ++ [frame] }

/-- Transport `spi_transfer(data)`: one full-duplex exchange; returns the
bus response to this exchange. -/
def spi_transfer (s : SpiBus) (frame : List ℕ) : List ℕ × SpiBus :=
  (s.responder s.log.length, { s with log := s.log ++ [frame] })

/-- The state of a `TMC2130` object relevant to the register protocol: its
field helper (`self.fields`, whose `registers` dict is the register cache)
and its SPI bus. -/
structure TMC2130 where
  fields : FieldHelper
  spi : SpiBus

/-- Modelled from the spec: the register name → address table `Registers`
lives in `tmc2130_extra` (not among the supplied sources); the spec says a
register "name (unique identifier, also maps to a numeric address)".  It is
kept as an abstract association list, and the first (truncated) line of
`get_register`, `reg = Registers[reg_name]`, is a lookup in it. -/
def RegistersTable := List (String × ℕ)

/-- Source `TMC2130.get_register(reg_name)`: sends the 5-byte read frame
`[reg, 0, 0, 0, 0]` once with `spi_send` (response discarded), once with
`spi_transfer`, and decodes the returned word big-endian from bytes 1..4 of
the second response (`pr[i]` out of range is embedded via `getD 0`; the
theorems fix the response length at 5).  Nothing else of the object is
touched: in particular `self.fields.registers` is not updated. -/
def get_register (registersTable : RegistersTable) (tmc : TMC2130)
    (reg_name : String) : Option (ℕ × TMC2130) :=
  match dlookup reg_name registersTable with
  | none => none
  | some reg =>
    let s1 := spi_send tmc.spi [reg, 0x00, 0x00, 0x00, 0x00]
    let pr := (spi_transfer s1 [reg, 0x00, 0x00, 0x00, 0x00]).1
    let s2 := (spi_transfer s1 [reg, 0x00, 0x00, 0x00, 0x00]).2
    some ((pr.getD 1 0) <<< 24 ||| (pr.getD 2 0) <<< 16 |||
            (pr.getD 3 0) <<< 8 ||| pr.getD 4 0,
          { tmc with spi := s2 })

/-- Source `TMC2130.set_register(reg_name, val)`: builds the write frame
`[(reg | 0x80) & 0xff, val>>24 & 0xff, val>>16 & 0xff, val>>8 & 0xff,
val & 0xff]` and sends it with `spi_send`; no response is parsed and no
cache is updated. -/
def set_register (registersTable : RegistersTable) (tmc : TMC2130)
    (reg_name : String) (val : ℕ) : Option TMC2130 :=
  match dlookup reg_name registersTable with
  | none => none
  | some reg =>
    let data := [(reg ||| 0x80) &&& 0xff, (val >>> 24) &&& 0xff, (val >>> 16) &&& 0xff,
                 (val >>> 8) &&& 0xff, val &&& 0xff]
    some { tmc with spi := spi_send tmc.spi data }

/-- The configuration-derived attributes of the `TMC2130` object that the
virtual-endstop hooks read.  They are set once in the truncated part of
`TMC2130.__init__` and never mutated: `reg_GCONF` is the GCONF word built
from the configuration, `run_current`/`hold_current`/`homing_current` are
the configured currents in amps, and `tcoolthrs` is the configured
TCOOLTHRS threshold. -/
structure TMCDriverConfig where
  reg_GCONF : ℕ
  run_current : ℚ
  hold_current : ℚ
  homing_current : ℚ
  tcoolthrs : ℤ

/-- Observable driver state affected by the endstop hooks: the device's
registers (each holding the 32-bit word carried by the last write frame
addressed to it), the run/hold current pair (in amps) last applied through
`set_current_regs`, and the lifecycle calls forwarded to the wrapped
`mcu_endstop`. -/
structure DriverRegs where
  regs : List (String × ℕ)
  current : ℚ × ℚ
  endstop_events : List String

/-- Effect on the device of `TMC2130.set_register(name, val)`: the four
data bytes of the write frame carry `val`'s 32-bit big-endian image, so
the device register takes the word reassembled from them. -/
def device_set_register (st : DriverRegs) (name : String) (val : ℕ) : DriverRegs :=
  { st with
    regs := dinsert name
      (((val >>> 24) &&& 0xff) * 2 ^ 24 + ((val >>> 16) &&& 0xff) * 2 ^ 16 +
        ((val >>> 8) &&& 0xff) * 2 ^ 8 + (val &&& 0xff)) st.regs }

/-- Modelled from the spec: `TMC2130.set_current_regs(run, hold)` is called
by both endstop hooks but its definition lies in the truncated region of
the source file; per the spec it sets "driver current to `(x, y)`", deriving
the current-scale register fields from the two amp values.  We record the
amp pair it applies; it writes current-scale registers only, not GCONF or
TCOOLTHRS. -/
def set_current_regs (st : DriverRegs) (run hold : ℚ) : DriverRegs :=
  { st with current := (run, hold) }

/-- Source `TMC2130VirtualEndstop.home_prepare`: starts from the
configured `reg_GCONF` word (not from the device's current GCONF), clears
`GCONF_EN_PWM_MODE`, sets `GCONF_DIAG1_STALL`, writes it; applies
`set_current_regs(homing_current, hold_current)`; writes `0xfffff` to
TCOOLTHRS; forwards `home_prepare` to the wrapped endstop.  No snapshot of
any register is taken anywhere in the method. -/
def endstop_home_prepare (cfg : TMCDriverConfig) (st : DriverRegs) : DriverRegs :=
  let gconf := cfg.reg_GCONF
  let gconf := andNot gconf GCONF_EN_PWM_MODE
  let gconf := gconf ||| GCONF_DIAG1_STALL
  let st := device_set_register st "GCONF" gconf
  let st := set_current_regs st cfg.homing_current cfg.hold_current
  let st := device_set_register st "TCOOLTHRS" 0xfffff
  { st with endstop_events := st.endstop_events ++ ["home_prepare"] }

/-- Source `TMC2130VirtualEndstop.home_finalize`: writes the configured
`reg_GCONF` word back to GCONF; applies
`set_current_regs(run_current, hold_current)`; writes
`max(0, min(0xfffff, tcoolthrs))` — the clamped configured threshold — to
TCOOLTHRS; forwards `home_finalize` to the wrapped endstop. -/
def endstop_home_finalize (cfg : TMCDriverConfig) (st : DriverRegs) : DriverRegs :=
  let st := device_set_register st "GCONF" cfg.reg_GCONF
  let st := set_current_regs st cfg.run_current cfg.hold_current
  let st := device_set_register st "TCOOLTHRS" (max 0 (min 0xfffff cfg.tcoolthrs)).toNat
  { st with endstop_events := st.endstop_events ++ ["home_finalize"] }

/-- Specification restatement (for the amended C4): the owner that the
`__init__` dict comprehension leaves for a field name is the register of
the LAST table entry whose field list contains that name — later entries
silently overwrite earlier ones. -/
def lastOwner (f : String) : List (String × List (String × ℕ)) → Option String
  | [] => none
  | rf :: rest =>
    match lastOwner f rest with
    | some r => some r
    | none => if rf.2.any (fun fm => fm.1 == f) then some rf.1 else none

/-- Specification restatement (for the amended C9) of the field enumeration
in `pretty_format`: from the `(mask, name)` pairs, keep with `filterMap`
those whose formatted value is neither empty nor `"0"`, rendering each as
`" name=value"`; defined only when every mask is non-empty (a zero mask
makes the source raise). -/
def pretty_fields_spec (fh : FieldHelper) (value : ℕ) (l : List (ℕ × String)) :
    Option (List String) :=
  if l.all (fun p => 0 < p.1) then
    some (l.filterMap (fun p =>
      let sval := ((dlookup p.2 fh.field_formatters).getD (fun n => toString n))
        ((value &&& p.1) >>> (ffs p.1).toNat)
      if sval ≠ "" ∧ sval ≠ "0" then some (" " ++ p.2 ++ "=" ++ sval) else none))
  else none

/-- Whether the two-character sequence `0x` occurs anywhere in a string. -/
def has0x (s : String) : Bool :=
  (s.data.zip s.data.tail).any (fun pc => pc.1 == '0' && pc.2 == 'x')

/-- Concrete field table used by witnesses: the GCONF register with its
`en_pwm_mode` (mask `1<<2`) and `diag1_stall` (mask `1<<8`) bits, as in the
source's register tables. -/
def fhGconf : FieldHelper :=
  mkFieldHelper [("GCONF", [("en_pwm_mode", 4), ("diag1_stall", 256)])] [] none

/-- Concrete driver configuration used by witnesses and counterexamples:
homing current different from run/hold current, configured GCONF word 0. -/
def cfgEx : TMCDriverConfig :=
  { reg_GCONF := 0, run_current := 1, hold_current := 1, homing_current := 2,
    tcoolthrs := 0 }

/-- Concrete driver state used by witnesses and counterexamples: the device
GCONF and TCOOLTHRS registers hold words differing from the configured
ones. -/
def stEx : DriverRegs :=
  { regs := [("GCONF", 5), ("TCOOLTHRS", 7)], current := (1, 1), endstop_events := [] }

/-- Concrete register-address table used by witnesses: GCONF at address 1. -/
def rtEx : RegistersTable := [("GCONF", 1)]

/-- Concrete TMC2130 state used by witnesses: empty SPI log, a bus that
answers the second exchange (index 1) with `[9, 0, 0, 0, 5]` and anything
else with `[7, 7, 7, 7, 7]`, and an empty register cache. -/
def tmcEx : TMC2130 :=
  { fields := fhGconf,
    spi := { log := [],
             responder := fun i => if i = 1 then [9, 0, 0, 0, 5] else [7, 7, 7, 7, 7] } }

/-! Helper lemmas about the dictionary embedding. -/

theorem dlookup_dinsert_self {β : Type} (k : String) (v : β) (d : List (String × β)) :
    dlookup k (dinsert k v d) = some v := by
  induction d with
  | nil => simp [dinsert, dlookup]
  | cons p rest ih =>
    by_cases h : k = p.1
    · simp [dinsert, dlookup, h]
    · simp [dinsert, dlookup, h, ih]

theorem dlookup_dinsert_ne {β : Type} (k k2 : String) (v : β) (d : List (String × β))
    (h : k ≠ k2) : dlookup k (dinsert k2 v d) = dlookup k d := by
  induction d with
  | nil => simp [dinsert, dlookup, h]
  | cons p rest ih =>
    by_cases h2 : k2 = p.1
    · subst h2
      simp [dinsert, dlookup, h]
    · by_cases h3 : k = p.1
      · simp [dinsert, dlookup, h2, h3]
      · simp [dinsert, dlookup, h2, h3, ih]

/-! Helper lemmas about natural-number bit arithmetic. -/

theorem testBit_andNot (w m : ℕ) (i : ℕ) :
    (andNot w m).testBit i = (w.testBit i && ! m.testBit i) := by
  simp only [andNot, Nat.testBit_xor, Nat.testBit_land]
  cases w.testBit i <;> cases m.testBit i <;> rfl

theorem or_eq_add (x : ℕ) : ∀ y, x &&& y = 0 → x ||| y = x + y := by
  induction x using Nat.binaryRec with
  | z => intro y _; simp
  | f a x ih =>
    intro y h
    rw [← Nat.bit_decomp y] at h ⊢
    rw [Nat.land_bit] at h
    rw [Nat.lor_bit]
    obtain ⟨h1, h2⟩ := Nat.bit_eq_zero_iff.mp h
    rw [Nat.bit_val, Nat.bit_val, Nat.bit_val, ih _ h1]
    cases a <;> cases hb : Nat.bodd y <;> simp_all <;> ring_nf

theorem land_two_pow_sub_one (n k : ℕ) : n &&& (2 ^ k - 1) = n % 2 ^ k := by
  apply Nat.eq_of_testBit_eq
  intro i
  simp only [Nat.testBit_land, Nat.testBit_two_pow_sub_one, Nat.testBit_mod_two_pow]
  exact Bool.and_comm _ _

theorem shiftLeft_land_eq_zero (x y k : ℕ) (hy : y < 2 ^ k) : (x <<< k) &&& y = 0 := by
  apply Nat.eq_of_testBit_eq
  intro i
  simp only [Nat.testBit_land, Nat.testBit_shiftLeft, Nat.zero_testBit]
  by_cases hik : k ≤ i
  · have : y.testBit i = false :=
      Nat.testBit_eq_false_of_lt (lt_of_lt_of_le hy (Nat.pow_le_pow_right (by norm_num) hik))
    simp [this]
  · simp [hik]

theorem shiftLeft_or_eq_add (x y k : ℕ) (hy : y < 2 ^ k) :
    (x <<< k) ||| y = x * 2 ^ k + y := by
  rw [or_eq_add _ _ (shiftLeft_land_eq_zero x y k hy), Nat.shiftLeft_eq]

theorem shiftLeft_or_distrib (a b k : ℕ) : (a ||| b) <<< k = (a <<< k) ||| (b <<< k) := by
  apply Nat.eq_of_testBit_eq
  intro i
  simp only [Nat.testBit_shiftLeft, Nat.testBit_lor]
  by_cases hik : k ≤ i <;> simp [hik]

theorem shiftLeft_shiftLeft (x a b : ℕ) : (x <<< a) <<< b = x <<< (a + b) := by
  simp [Nat.shiftLeft_eq, Nat.pow_add, Nat.mul_assoc]

/-- Big-endian decoding of four bytes, as in `get_register`: the left-to-
right `|` chain of shifted bytes equals the positional value. -/
theorem be32_decode (b c d e : ℕ) (hb : b < 256) (hc : c < 256) (hd : d < 256)
    (he : e < 256) :
    ((b <<< 24) ||| (c <<< 16)) ||| (d <<< 8) ||| e =
      b * 2 ^ 24 + c * 2 ^ 16 + d * 2 ^ 8 + e := by
  have h1 : b <<< 24 ||| c <<< 16 = ((b <<< 8) ||| c) <<< 16 := by
    rw [shiftLeft_or_distrib, shiftLeft_shiftLeft]
  have h2 : (b <<< 8) ||| c = b * 2 ^ 8 + c := shiftLeft_or_eq_add b c 8 (by omega)
  have h3 : ((b * 2 ^ 8 + c) <<< 8 ||| d) <<< 8 = ((b * 2 ^ 8 + c) <<< 16) ||| d <<< 8 := by
    rw [shiftLeft_or_distrib, shiftLeft_shiftLeft]
  have h4 : (b * 2 ^ 8 + c) <<< 8 ||| d = (b * 2 ^ 8 + c) * 2 ^ 8 + d :=
    shiftLeft_or_eq_add _ d 8 (by omega)
  have h5 : ((b * 2 ^ 8 + c) * 2 ^ 8 + d) <<< 8 ||| e =
      ((b * 2 ^ 8 + c) * 2 ^ 8 + d) * 2 ^ 8 + e :=
    shiftLeft_or_eq_add _ e 8 (by omega)
  rw [h1, h2, ← h3, h4, h5]
  ring

/-- The word carried by the four data bytes of a `set_register` frame is
the value reduced to 32 bits. -/
theorem device_word_eq_mod (val : ℕ) :
    ((val >>> 24) &&& 0xff) * 2 ^ 24 + ((val >>> 16) &&& 0xff) * 2 ^ 16 +
      ((val >>> 8) &&& 0xff) * 2 ^ 8 + (val &&& 0xff) = val % 2 ^ 32 := by
  have h8 : (0xff : ℕ) = 2 ^ 8 - 1 := by norm_num
  rw [h8, land_two_pow_sub_one, land_two_pow_sub_one, land_two_pow_sub_one,
    land_two_pow_sub_one, Nat.shiftRight_eq_div_pow, Nat.shiftRight_eq_div_pow,
    Nat.shiftRight_eq_div_pow]
  omega

theorem bitLenAux_zero (fuel : ℕ) : bitLenAux fuel 0 = 0 := by
  cases fuel <;> simp [bitLenAux]

theorem bitLenAux_congr (f1 : ℕ) : ∀ f2 n, n ≤ f1 → n ≤ f2 → bitLenAux f1 n = bitLenAux f2 n := by
  induction f1 with
  | zero =>
    intro f2 n h1 _
    interval_cases n
    rw [bitLenAux_zero, bitLenAux_zero]
  | succ g1 ih =>
    intro f2 n h1 h2
    by_cases hn : n = 0
    · subst hn; rw [bitLenAux_zero, bitLenAux_zero]
    · obtain ⟨g2, rfl⟩ : ∃ g2, f2 = g2 + 1 := ⟨f2 - 1, by omega⟩
      simp only [bitLenAux, hn, if_false]
      rw [ih g2 (n / 2) (by omega) (by omega)]

theorem bit_length_two_pow (s : ℕ) : bit_length (2 ^ s) = s + 1 := by
  induction s with
  | zero => rfl
  | succ s ih =>
    have hp : 2 ^ (s + 1) = 2 * 2 ^ s := by rw [Nat.pow_succ]; ring
    have hpos : 0 < 2 ^ s := Nat.pos_pow_of_pos s (by norm_num)
    obtain ⟨g, hg⟩ : ∃ g, 2 ^ (s + 1) = g + 1 := ⟨2 ^ (s + 1) - 1, by omega⟩
    unfold bit_length
    rw [hg]
    simp only [bitLenAux, Nat.succ_ne_zero, if_false]
    have hdiv : (g + 1) / 2 = 2 ^ s := by omega
    rw [hdiv, bitLenAux_congr g (2 ^ s) (2 ^ s) (by omega) le_rfl]
    rw [bit_length] at ih
    omega

theorem land_self_eq (n : ℕ) : n &&& n = n := by
  apply Nat.eq_of_testBit_eq
  intro i
  simp [Nat.testBit_land]

theorem lowbit_contig (w s : ℕ) (hw : 0 < w) : lowbit ((2 ^ w - 1) <<< s) = 2 ^ s := by
  induction s with
  | zero =>
    rw [Nat.shiftLeft_zero]
    obtain ⟨u, rfl⟩ : ∃ u, w = u + 1 := ⟨w - 1, by omega⟩
    have hp : 2 ^ (u + 1) = 2 * 2 ^ u := by rw [Nat.pow_succ]; ring
    have hpos : 0 < 2 ^ u := Nat.pos_pow_of_pos u (by norm_num)
    have hm : 2 ^ (u + 1) - 1 = Nat.bit true (2 ^ u - 1) := by
      rw [Nat.bit_val]; simp; omega
    have hm2 : 2 ^ (u + 1) - 1 - 1 = Nat.bit false (2 ^ u - 1) := by
      rw [Nat.bit_val]; simp; omega
    rw [lowbit, andNot, hm2, hm, Nat.land_bit, land_self_eq, Nat.xor_bit]
    simp [Nat.bit_val]
  | succ s ih =>
    have hpos : 0 < (2 ^ w - 1) <<< s := by
      rw [Nat.shiftLeft_eq]
      have h1 : 0 < 2 ^ w - 1 := by
        have : 2 ^ 1 ≤ 2 ^ w := Nat.pow_le_pow_right (by norm_num) hw
        omega
      exact Nat.mul_pos h1 (Nat.pos_pow_of_pos s (by norm_num))
    set N := (2 ^ w - 1) <<< s with hN
    have hstep : (2 ^ w - 1) <<< (s + 1) = Nat.bit false N := by
      rw [Nat.bit_val, hN, Nat.shiftLeft_eq, Nat.shiftLeft_eq, Nat.pow_succ]
      simp only [Bool.toNat_false, Nat.add_zero]
      ring
    have hstep2 : (2 ^ w - 1) <<< (s + 1) - 1 = Nat.bit true (N - 1) := by
      rw [hstep, Nat.bit_val, Nat.bit_val]
      simp
      omega
    rw [lowbit, andNot, hstep2, hstep, Nat.land_bit, Nat.xor_bit]
    have hlow : N ^^^ N &&& (N - 1) = lowbit N := rfl
    have hb : (bne false (false && true) : Bool) = false := rfl
    rw [hb, hlow, ih, Nat.bit_val]
    simp [Nat.pow_succ]
    ring

theorem ffs_contig (w s : ℕ) (hw : 0 < w) : ffs ((2 ^ w - 1) <<< s) = s := by
  rw [ffs, lowbit_contig w s hw, bit_length_two_pow]
  push_cast
  ring

/-- Core of the field round-trip: installing a value `v < 2^w` into a
contiguous mask of `w` bits at offset `s` over any resident word `rv`, and
extracting it again, recovers `v`. -/
theorem field_roundtrip_core (w s v rv : ℕ) (hv : v < 2 ^ w) :
    ((andNot rv ((2 ^ w - 1) <<< s) |||
        ((v <<< s) &&& ((2 ^ w - 1) <<< s))) &&& ((2 ^ w - 1) <<< s)) >>> s = v := by
  apply Nat.eq_of_testBit_eq
  intro i
  simp only [Nat.testBit_shiftRight, Nat.testBit_land, Nat.testBit_lor, testBit_andNot,
    Nat.testBit_shiftLeft, Nat.testBit_two_pow_sub_one, ge_iff_le, Nat.le_add_right,
    Nat.add_sub_cancel_left]
  by_cases hi : i < w
  · simp [hi]
  · have hv2 : v.testBit i = false :=
      Nat.testBit_eq_false_of_lt
        (lt_of_lt_of_le hv (Nat.pow_le_pow_right (by norm_num) (by omega)))
    simp [hi, hv2]

/-- Core of the isolation property: the update written by `set_field`
agrees with the starting word on every bit outside the mask. -/
theorem set_field_isolation_core (mask v rv : ℕ) :
    andNot (andNot rv mask ||| (v &&& mask)) mask = andNot rv mask := by
  apply Nat.eq_of_testBit_eq
  intro i
  simp only [testBit_andNot, Nat.testBit_lor, Nat.testBit_land]
  cases rv.testBit i <;> cases mask.testBit i <;> cases v.testBit i <;> rfl

theorem land_two_pow_eq_zero (x k : ℕ) (h : x < 2 ^ k) : x &&& 2 ^ k = 0 := by
  apply Nat.eq_of_testBit_eq
  intro i
  simp only [Nat.testBit_land, Nat.zero_testBit, Nat.testBit_two_pow]
  by_cases hik : k = i
  · subst hik
    simp [Nat.testBit_eq_false_of_lt h]
  · simp [hik]

theorem lowbit_pos (mask : ℕ) (h : 0 < mask) : 0 < lowbit mask := by
  rcases Nat.eq_zero_or_pos (lowbit mask) with h0 | h0
  · exfalso
    have hx : mask = mask &&& (mask - 1) := by
      have := Nat.xor_eq_zero.mp h0
      exact this
    have hle : mask &&& (mask - 1) ≤ mask - 1 := Nat.and_le_right
    omega
  · exact h0

theorem bit_length_pos (n : ℕ) (h : 0 < n) : 0 < bit_length n := by
  obtain ⟨g, rfl⟩ : ∃ g, n = g + 1 := ⟨n - 1, by omega⟩
  simp [bit_length, bitLenAux]

theorem ffs_neg_iff (mask : ℕ) : ffs mask < 0 ↔ mask = 0 := by
  constructor
  · intro h
    by_contra hm
    have h1 : 0 < lowbit mask := lowbit_pos mask (by omega)
    have h2 : 0 < bit_length (lowbit mask) := bit_length_pos _ h1
    rw [ffs] at h
    omega
  · intro h
    subst h
    decide

theorem ffs_shiftLeft_toNat (w s : ℕ) (hw : 0 < w) :
    (ffs ((2 ^ w - 1) <<< s)).toNat = s := by
  rw [ffs_contig w s hw, Int.toNat_natCast]

theorem contig_mask_shiftRight (w s : ℕ) : ((2 ^ w - 1) <<< s) >>> s = 2 ^ w - 1 := by
  rw [Nat.shiftLeft_eq, Nat.shiftRight_eq_div_pow]
  exact Nat.mul_div_cancel _ (Nat.pos_pow_of_pos s (by norm_num))

theorem dlookup_inner_foldl (r f : String) (fl : List (String × ℕ)) :
    ∀ d, dlookup f (fl.foldl (fun d2 fm => dinsert fm.1 r d2) d) =
      if fl.any (fun fm => fm.1 == f) then some r else dlookup f d := by
  induction fl with
  | nil => intro d; simp
  | cons fm fl ih =>
    intro d
    simp only [List.foldl_cons, List.any_cons]
    rw [ih]
    by_cases hf : fm.1 = f
    · by_cases hfl : (fl.any fun fm => fm.1 == f) = true
      · simp [hfl, hf]
      · simp only [Bool.not_eq_true] at hfl
        simp [hfl, hf, dlookup_dinsert_self]
    · have hne : f ≠ fm.1 := fun hc => hf hc.symm
      by_cases hfl : (fl.any fun fm => fm.1 == f) = true
      · simp [hfl, hf]
      · simp only [Bool.not_eq_true] at hfl
        simp [hfl, hf, dlookup_dinsert_ne f fm.1 r d hne]

theorem dlookup_field_to_register_foldl (f : String)
    (table : List (String × List (String × ℕ))) :
    ∀ d, dlookup f
        (table.foldl (fun d rf => rf.2.foldl (fun d2 fm => dinsert fm.1 rf.1 d2) d) d) =
      match lastOwner f table with
      | some r => some r
      | none => dlookup f d := by
  induction table with
  | nil => intro d; simp [lastOwner]
  | cons rf rest ih =>
    intro d
    simp only [List.foldl_cons]
    rw [ih]
    cases hrest : lastOwner f rest with
    | some r => simp [lastOwner, hrest]
    | none =>
      simp only [lastOwner, hrest]
      rw [dlookup_inner_foldl]
      by_cases hany : rf.2.any (fun fm => fm.1 == f) <;> simp [hany]

theorem pretty_format_loop_eq_spec (fh : FieldHelper) (value : ℕ) (l : List (ℕ × String)) :
    pretty_format_loop fh value l = pretty_fields_spec fh value l := by
  induction l with
  | nil => simp [pretty_format_loop, pretty_fields_spec]
  | cons p rest ih =>
    obtain ⟨mask, name⟩ := p
    by_cases hm : mask = 0
    · subst hm
      have hffs : ffs 0 < 0 := by decide
      simp [pretty_format_loop, pretty_fields_spec, hffs]
    · have hffs : ¬ ffs mask < 0 := by rw [ffs_neg_iff]; exact hm
      simp only [pretty_format_loop, hffs, if_false, ih, pretty_fields_spec]
      by_cases hall : (rest.all fun p => decide (0 < p.1)) = true
      · simp only [hall, if_true, List.all_cons, List.filterMap_cons]
        have hmp : (decide (0 < mask) && true) = true := by simp; omega
        simp only [hmp, if_true]
        by_cases hcond :
            ((dlookup name fh.field_formatters).getD (fun n => toString n))
              ((value &&& mask) >>> (ffs mask).toNat) ≠ "" ∧
            ((dlookup name fh.field_formatters).getD (fun n => toString n))
              ((value &&& mask) >>> (ffs mask).toNat) ≠ "0"
        · simp [hcond]
        · simp [hcond]
      · simp only [Bool.not_eq_true] at hall
        simp [hall, List.all_cons]

/-! Claim theorems. -/

/-- C3 counterexample: for the concrete table `fhGconf`, whose GCONF
register has no RegisterCache entry, `get_field` on `en_pwm_mode` without
an explicit word does not succeed with a result computed from a register
word of 0 — it fails (Python `KeyError` on `self.registers[reg_name]`),
refuting the claim. -/
theorem c3_counterexample :
    dlookup "GCONF" fhGconf.registers = none ∧
    (get_field fhGconf "en_pwm_mode" none none).1 = none := by decide

/-- C3 amended: when the owning register of a field has no RegisterCache
entry, `get_field` called without an explicit word fails (`KeyError`); only
`set_field` defaults the absent entry to 0
(`self.registers.get(reg_name, 0)`), behaving as if the cached word were
an explicit 0. -/
theorem c3_get_field_missing_cache_fails (fh : FieldHelper) (field rn : String) (v : ℕ)
    (h1 : dlookup field fh.field_to_register = some rn)
    (h2 : dlookup rn fh.registers = none) :
    (get_field fh field none none).1 = none ∧
    set_field fh field v none none = set_field fh field v (some 0) none := by
  constructor
  · simp [get_field, h1, h2]
  · simp [set_field, h1, h2]

/-- C3 witness: the amended statement instantiated at the concrete table
`fhGconf`, field `en_pwm_mode`, value 1. -/
theorem c3_witness :
    (dlookup "en_pwm_mode" fhGconf.field_to_register = some "GCONF" ∧
      dlookup "GCONF" fhGconf.registers = none) ∧
    ((get_field fhGconf "en_pwm_mode" none none).1 = none ∧
      set_field fhGconf "en_pwm_mode" 1 none none =
        set_field fhGconf "en_pwm_mode" 1 (some 0) none) :=
  ⟨⟨by decide, by decide⟩,
    c3_get_field_missing_cache_fails fhGconf "en_pwm_mode" "GCONF" 1 (by decide) (by decide)⟩

/-- C4 counterexample: a table in which field `f` appears under two
different registers, once with a zero mask; `FieldHelper` construction
raises no error — it succeeds, the later register silently winning the
reverse lookup. -/
theorem c4_counterexample :
    (mkFieldHelper [("R1", [("f", 0)]), ("R2", [("f", 4)])] [] none).field_to_register
      = [("f", "R2")] := by decide

/-- C4 amended: `FieldHelper` construction performs no validation and
cannot fail: for every table — including tables with a field name under
two registers and with zero masks — it succeeds, and the reverse lookup
maps each field name to the register of the last table entry containing
it (later entries silently shadow earlier ones). -/
theorem c4_init_performs_no_validation (table : List (String × List (String × ℕ)))
    (fmts : List (String × (ℕ → String))) (regs : Option (List (String × ℕ)))
    (f : String) :
    dlookup f (mkFieldHelper table fmts regs).field_to_register = lastOwner f table := by
  show dlookup f (field_to_register_of table) = lastOwner f table
  rw [field_to_register_of, dlookup_field_to_register_foldl]
  cases lastOwner f table <;> simp [dlookup]

/-- C5: for every field whose mask is a non-empty contiguous run of bits
(`(2^w - 1) <<< s` with `w > 0`), every value `v` in
`[0, mask >> ffs(mask)]`, and any starting register cache, reading back
with `get_field` the word produced (and stored) by `set_field` recovers
exactly `v`. -/
theorem c5_field_roundtrip (fh : FieldHelper) (field rn : String)
    (mask w s v new : ℕ) (fh2 : FieldHelper)
    (h1 : dlookup field fh.field_to_register = some rn)
    (h2 : (dlookup rn fh.all_fields).bind (fun fl => dlookup field fl) = some mask)
    (hmask : mask = (2 ^ w - 1) <<< s) (hw : 0 < w)
    (hv : v ≤ mask >>> (ffs mask).toNat)
    (hsf : set_field fh field v none none = some (new, fh2)) :
    (get_field fh2 field (some new) none).1 = some v := by
  subst hmask
  have hffs : ¬ ffs ((2 ^ w - 1) <<< s) < 0 := by
    rw [ffs_neg_iff]
    rw [Nat.shiftLeft_eq]
    have h3 : 2 ^ 1 ≤ 2 ^ w := Nat.pow_le_pow_right (by norm_num) hw
    have h4 : 0 < 2 ^ s := Nat.pos_pow_of_pos s (by norm_num)
    have h5 : 0 < (2 ^ w - 1) * 2 ^ s := Nat.mul_pos (by omega) h4
    omega
  rw [ffs_shiftLeft_toNat w s hw, contig_mask_shiftRight] at hv
  have hvlt : v < 2 ^ w := by
    have h3 : 0 < 2 ^ w := Nat.pos_pow_of_pos w (by norm_num)
    omega
  simp only [set_field, h1, h2, hffs, if_false, Option.some.injEq, Prod.mk.injEq] at hsf
  obtain ⟨hnew, hfh2⟩ := hsf
  have hf2reg : fh2.field_to_register = fh.field_to_register := by rw [← hfh2]
  have hf2all : fh2.all_fields = fh.all_fields := by rw [← hfh2]
  simp only [get_field, hf2reg, h1, hf2all, h2, hffs, if_false]
  rw [← hnew, ffs_shiftLeft_toNat w s hw]
  exact congrArg some (field_roundtrip_core w s v _ hvlt)

/-- C5 witness: the round-trip instantiated at the concrete table
`fhGconf`, field `en_pwm_mode` (mask `1 <<< 2`, i.e. `w = 1`, `s = 2`),
value 1, starting from the empty cache. -/
theorem c5_witness :
    (dlookup "en_pwm_mode" fhGconf.field_to_register = some "GCONF" ∧
      (dlookup "GCONF" fhGconf.all_fields).bind (fun fl => dlookup "en_pwm_mode" fl) =
        some 4 ∧
      (4 : ℕ) = (2 ^ 1 - 1) <<< 2 ∧ (0 : ℕ) < 1 ∧ 1 ≤ 4 >>> (ffs 4).toNat ∧
      set_field fhGconf "en_pwm_mode" 1 none none =
        some (4, { fhGconf with registers := [("GCONF", 4)] })) ∧
    (get_field { fhGconf with registers := [("GCONF", 4)] } "en_pwm_mode"
        (some 4) none).1 = some 1 :=
  ⟨⟨by decide, by decide, by decide, by decide, by decide, by rfl⟩,
    c5_field_roundtrip fhGconf "en_pwm_mode" "GCONF" 4 1 2 1 4
      { fhGconf with registers := [("GCONF", 4)] }
      (by decide) (by decide) (by decide) (by decide) (by decide) (by rfl)⟩

/-- C6: `set_field` never alters bits of the register word outside the
field's own mask: for every field, every field value (also out-of-range
ones) and every starting word, the written word agrees with the starting
word outside the mask (`new & ~mask = old & ~mask`, `& ~` being `andNot`
on nonnegative words). -/
theorem c6_set_field_isolation (fh : FieldHelper) (field rn : String)
    (mask v word new : ℕ) (fh2 : FieldHelper)
    (h1 : dlookup field fh.field_to_register = some rn)
    (h2 : (dlookup rn fh.all_fields).bind (fun fl => dlookup field fl) = some mask)
    (hsf : set_field fh field v (some word) none = some (new, fh2)) :
    andNot new mask = andNot word mask := by
  by_cases hffs : ffs mask < 0
  · simp [set_field, h1, h2, hffs] at hsf
  · simp only [set_field, h1, h2, hffs, if_false, Option.some.injEq, Prod.mk.injEq] at hsf
    rw [← hsf.1]
    exact set_field_isolation_core mask _ word

/-- C6 witness: isolation instantiated at the concrete table `fhGconf`,
field `en_pwm_mode` (mask 4), out-of-range value 7, starting word
`0xffff`: the bits outside the mask survive unchanged. -/
theorem c6_witness :
    (dlookup "en_pwm_mode" fhGconf.field_to_register = some "GCONF" ∧
      (dlookup "GCONF" fhGconf.all_fields).bind (fun fl => dlookup "en_pwm_mode" fl) =
        some 4 ∧
      set_field fhGconf "en_pwm_mode" 7 (some 0xffff) none =
        some (0xffff, { fhGconf with registers := [("GCONF", 0xffff)] })) ∧
    andNot 0xffff 4 = andNot 0xffff 4 :=
  ⟨⟨by decide, by decide, by rfl⟩,
    c6_set_field_isolation fhGconf "en_pwm_mode" "GCONF" 4 7 0xffff 0xffff
      { fhGconf with registers := [("GCONF", 0xffff)] }
      (by decide) (by decide) (by rfl)⟩

/-- C10: the codec's read-only operations never mutate the RegisterCache:
`get_field` and `pretty_format` return the receiver unchanged for all
inputs; the only cache writer is `set_field` — which changes nothing but
`registers`, inserting the written word under one register key — and
`set_config_field` writes only by delegating to `set_field`. -/
theorem c10_only_set_field_writes_cache :
    (∀ fh field rv rn, (get_field fh field rv rn).2 = fh) ∧
    (∀ fh reg value, (pretty_format fh reg value).2 = fh) ∧
    (∀ fh field v rv rn,
      match set_field fh field v rv rn with
      | none => True
      | some p =>
        p.2.all_fields = fh.all_fields ∧ p.2.field_formatters = fh.field_formatters ∧
        p.2.field_to_register = fh.field_to_register ∧
        ∃ r, p.2.registers = dinsert r p.1 fh.registers) ∧
    (∀ fh config field dflt cn, ∃ val,
      set_config_field fh config field dflt cn = set_field fh field val none none) := by
  refine ⟨?_, ?_, ?_, ?_⟩
  · intro fh field rv rn
    unfold get_field
    dsimp only
    repeat' split
    all_goals rfl
  · intro fh reg value
    unfold pretty_format
    dsimp only
    split
    all_goals rfl
  · intro fh field v rv rn
    cases hsf : set_field fh field v rv rn with
    | none => trivial
    | some p =>
      unfold set_field at hsf
      dsimp only at hsf
      split at hsf
      · cases hsf
      · rename_i rn2 heq1
        split at hsf
        · cases hsf
        · split at hsf
          · cases hsf
          · cases hsf
            exact ⟨rfl, rfl, rfl, rn2, rfl⟩
  · intro fh config field dflt cn
    unfold set_config_field
    dsimp only
    split
    · rename_i hlook
      refine ⟨0, ?_⟩
      simp [set_field, hlook]
    · rename_i rn2 hlook
      split
      · rename_i hmask
        refine ⟨0, ?_⟩
        simp [set_field, hlook, hmask]
      · rename_i mask hmask
        split
        · rename_i hffs
          refine ⟨0, ?_⟩
          simp [set_field, hlook, hmask, hffs]
        · exact ⟨_, rfl⟩

/-- C2 counterexample: at a concrete bus whose second exchange answers
`[9,0,0,0,5]`, `get_register` returns the word 5 but leaves the
RegisterCache untouched — the cache entry for `GCONF` is still absent
afterwards, refuting the claim that `read_register` also stores the word
in the RegisterCache. -/
theorem c2_counterexample :
    (get_register rtEx tmcEx "GCONF").map
        (fun p => (p.1, dlookup "GCONF" p.2.fields.registers)) = some (5, none) := by
  decide

/-- C2 amended: `get_register` performs exactly two transport exchanges of
the identical 5-byte frame `[reg, 0, 0, 0, 0]` (read bit clear: register
addresses are below `0x80`), ignores the response of the first exchange,
decodes the returned word big-endian from the last 4 bytes of the second
exchange's response, and leaves the rest of the object — in particular the
RegisterCache — unchanged. -/
theorem c2_get_register_two_exchanges (rt : RegistersTable) (tmc : TMC2130)
    (name : String) (reg a0 b c d e : ℕ)
    (hreg : dlookup name rt = some reg)
    (hlt : reg < 0x80)
    (hresp : tmc.spi.responder (tmc.spi.log.length + 1) = [a0, b, c, d, e])
    (hb : b < 256) (hc : c < 256) (hd : d < 256) (he : e < 256) :
    get_register rt tmc name =
      some (b * 2 ^ 24 + c * 2 ^ 16 + d * 2 ^ 8 + e,
        { tmc with spi := { tmc.spi with
            log := tmc.spi.log ++ [[reg, 0, 0, 0, 0], [reg, 0, 0, 0, 0]] } }) ∧
    reg &&& 0x80 = 0 := by
  constructor
  · have hlen : ((spi_send tmc.spi [reg, 0, 0, 0, 0]).log).length =
        tmc.spi.log.length + 1 := by
      simp [spi_send]
    simp only [get_register, hreg, spi_transfer, spi_send, hlen] at *
    rw [hresp]
    simp only [List.getD, List.get?, Option.getD]
    rw [be32_decode b c d e hb hc hd he]
    simp [List.append_assoc]
  · have h128 : (0x80 : ℕ) = 2 ^ 7 := by norm_num
    rw [h128]
    exact land_two_pow_eq_zero reg 7 (by omega)

/-- C2 witness: the amended statement instantiated at the concrete bus
`tmcEx` and table `rtEx` (GCONF at address 1); the second response is
`[9,0,0,0,5]`, decoding to word 5. -/
theorem c2_witness :
    (dlookup "GCONF" rtEx = some 1 ∧ (1 : ℕ) < 0x80 ∧
      tmcEx.spi.responder (tmcEx.spi.log.length + 1) = [9, 0, 0, 0, 5] ∧
      (0 : ℕ) < 256 ∧ (0 : ℕ) < 256 ∧ (0 : ℕ) < 256 ∧ (5 : ℕ) < 256) ∧
    (get_register rtEx tmcEx "GCONF" =
      some (0 * 2 ^ 24 + 0 * 2 ^ 16 + 0 * 2 ^ 8 + 5,
        { tmcEx with spi := { tmcEx.spi with
            log := tmcEx.spi.log ++ [[1, 0, 0, 0, 0], [1, 0, 0, 0, 0]] } }) ∧
      (1 : ℕ) &&& 0x80 = 0) :=
  ⟨⟨by decide, by decide, by decide, by decide, by decide, by decide, by decide⟩,
    c2_get_register_two_exchanges rtEx tmcEx "GCONF" 1 9 0 0 0 5
      (by decide) (by decide) (by decide) (by decide) (by decide) (by decide) (by decide)⟩

/-- C1 counterexample: with configured `reg_GCONF = 0` and `tcoolthrs = 0`
(`cfgEx`) but device registers holding GCONF = 5 and TCOOLTHRS = 7 just
before homing (`stEx`), `home_prepare` followed immediately by
`home_finalize` leaves GCONF = 0 and TCOOLTHRS = 0 — not the bit-exact
pre-prepare words 5 and 7.  No snapshot is taken; the claim is false. -/
theorem c1_counterexample :
    dlookup "GCONF" stEx.regs = some 5 ∧ dlookup "TCOOLTHRS" stEx.regs = some 7 ∧
    dlookup "GCONF" ((endstop_home_finalize cfgEx (endstop_home_prepare cfgEx stEx)).regs)
      = some 0 ∧
    dlookup "TCOOLTHRS"
        ((endstop_home_finalize cfgEx (endstop_home_prepare cfgEx stEx)).regs)
      = some 0 := by
  decide

/-- C1 amended: `home_prepare` immediately followed by `home_finalize`
leaves GCONF at the statically configured word `reg_GCONF` and TCOOLTHRS at
the clamped configured threshold `max 0 (min 0xfffff tcoolthrs)` — no
snapshot of the pre-prepare register words is taken anywhere.  The
restoration is bit-exact precisely when the pre-prepare words already
equalled those configured values. -/
theorem c1_home_finalize_writes_configured (cfg : TMCDriverConfig) (st : DriverRegs)
    (hg : cfg.reg_GCONF < 2 ^ 32) :
    dlookup "GCONF" ((endstop_home_finalize cfg (endstop_home_prepare cfg st)).regs) =
      some cfg.reg_GCONF ∧
    dlookup "TCOOLTHRS"
        ((endstop_home_finalize cfg (endstop_home_prepare cfg st)).regs) =
      some (max 0 (min 0xfffff cfg.tcoolthrs)).toNat ∧
    (dlookup "GCONF" st.regs = some cfg.reg_GCONF ∧
      dlookup "TCOOLTHRS" st.regs = some (max 0 (min 0xfffff cfg.tcoolthrs)).toNat →
      dlookup "GCONF" ((endstop_home_finalize cfg (endstop_home_prepare cfg st)).regs) =
        dlookup "GCONF" st.regs ∧
      dlookup "TCOOLTHRS"
          ((endstop_home_finalize cfg (endstop_home_prepare cfg st)).regs) =
        dlookup "TCOOLTHRS" st.regs) := by
  have hne : "GCONF" ≠ "TCOOLTHRS" := by decide
  have hT : (max 0 (min 0xfffff cfg.tcoolthrs)).toNat < 2 ^ 32 := by omega
  have hG : dlookup "GCONF"
      ((endstop_home_finalize cfg (endstop_home_prepare cfg st)).regs) =
      some cfg.reg_GCONF := by
    simp only [endstop_home_finalize, endstop_home_prepare, device_set_register,
      set_current_regs]
    rw [dlookup_dinsert_ne _ _ _ _ hne, dlookup_dinsert_self]
    rw [device_word_eq_mod]
    rw [Nat.mod_eq_of_lt hg]
  have hTc : dlookup "TCOOLTHRS"
      ((endstop_home_finalize cfg (endstop_home_prepare cfg st)).regs) =
      some (max 0 (min 0xfffff cfg.tcoolthrs)).toNat := by
    simp only [endstop_home_finalize, endstop_home_prepare, device_set_register,
      set_current_regs]
    rw [dlookup_dinsert_self]
    rw [device_word_eq_mod]
    rw [Nat.mod_eq_of_lt hT]
  refine ⟨hG, hTc, ?_⟩
  rintro ⟨hpg, hpt⟩
  rw [hG, hTc, hpg, hpt]
  exact ⟨rfl, rfl⟩

/-- C1 witness: the amended statement instantiated at the concrete
configuration `cfgEx` and device state `stEx`. -/
theorem c1_witness :
    cfgEx.reg_GCONF < 2 ^ 32 ∧
    (dlookup "GCONF" ((endstop_home_finalize cfgEx (endstop_home_prepare cfgEx stEx)).regs) =
        some cfgEx.reg_GCONF ∧
      dlookup "TCOOLTHRS"
          ((endstop_home_finalize cfgEx (endstop_home_prepare cfgEx stEx)).regs) =
        some (max 0 (min 0xfffff cfgEx.tcoolthrs)).toNat ∧
      (dlookup "GCONF" stEx.regs = some cfgEx.reg_GCONF ∧
        dlookup "TCOOLTHRS" stEx.regs = some (max 0 (min 0xfffff cfgEx.tcoolthrs)).toNat →
        dlookup "GCONF"
            ((endstop_home_finalize cfgEx (endstop_home_prepare cfgEx stEx)).regs) =
          dlookup "GCONF" stEx.regs ∧
        dlookup "TCOOLTHRS"
            ((endstop_home_finalize cfgEx (endstop_home_prepare cfgEx stEx)).regs) =
          dlookup "TCOOLTHRS" stEx.regs)) :=
  ⟨by decide, c1_home_finalize_writes_configured cfgEx stEx (by decide)⟩

/-- C8 counterexample: with homing current 2 A and hold current 1 A
(`cfgEx`), `home_prepare` applies the current pair (2, 1) — run scale from
the homing current but hold scale from the configured hold current — not
the claimed pair (homing, homing) = (2, 2). -/
theorem c8_counterexample :
    (endstop_home_prepare cfgEx stEx).current ≠
      (cfgEx.homing_current, cfgEx.homing_current) := by
  simp only [endstop_home_prepare, device_set_register, set_current_regs, cfgEx, stEx]
  intro h
  have h2 := congrArg Prod.snd h
  norm_num at h2

/-- C8 amended: during `home_prepare` the driver current pair passed to
`set_current_regs` is `(homing_current, hold_current)`: the run scale comes
from the configured homing current, the hold scale from the ordinary
configured hold current. -/
theorem c8_home_prepare_current (cfg : TMCDriverConfig) (st : DriverRegs) :
    (endstop_home_prepare cfg st).current = (cfg.homing_current, cfg.hold_current) := by
  rfl

/-- C9 counterexample: at the concrete table `fhGconf` and word 4,
`pretty_format` emits `"GCONF:      00000004 en_pwm_mode=1"` — the register
word appears as bare 8-digit hexadecimal and the string contains no `0x`
anywhere, refuting the claimed `0x`-prefixed form (the zero-valued
`diag1_stall` field is omitted, as claimed). -/
theorem c9_counterexample :
    (pretty_format fhGconf "GCONF" 4).1 = some "GCONF:      00000004 en_pwm_mode=1" ∧
    has0x "GCONF:      00000004 en_pwm_mode=1" = false := by
  decide

/-- C9 amended: `pretty_format` renders the register's `(mask, name)`
pairs sorted ascending, keeps exactly the fields whose formatted value
(per-field formatter, default decimal) is neither empty nor `"0"`, each as
`" name=value"`, and emits the register name (suffixed `:`, left-justified
to width 11), one space, and the word as zero-padded 8-digit lowercase
hexadecimal WITHOUT a `0x` prefix, followed by the field entries. -/
theorem c9_pretty_format_layout :
    (∀ fh reg value,
      (pretty_format fh reg value).1 =
        (pretty_fields_spec fh value
            (sortPairs (((dlookup reg fh.all_fields).getD []).map (fun p => (p.2, p.1))))).map
          (fun fields =>
            padTo11 (reg ++ ":") ++ " " ++ format08x value ++ String.join fields)) ∧
    (pretty_format fhGconf "GCONF" 260).1 =
      some "GCONF:      00000104 en_pwm_mode=1 diag1_stall=1" := by
  constructor
  · intro fh reg value
    simp only [pretty_format, pretty_format_loop_eq_spec]
    cases hx : pretty_fields_spec fh value
        (sortPairs (((dlookup reg fh.all_fields).getD []).map (fun p => (p.2, p.1)))) <;>
      simp [hx]
  · decide

theorem current_bits_bounds (s2 c sr : ℚ) (v : Bool) :
    0 ≤ current_bits s2 c sr v ∧ current_bits s2 c sr v ≤ 31 := by
  simp only [current_bits]
  omega

theorem current_bits_escalation_low (s2 : ℚ) (hs2a : 1.41 ≤ s2) (hs2b : s2 ≤ 1.42) :
    current_bits s2 0.3 0.110 false < 16 := by
  simp only [current_bits, pyint, Bool.false_eq_true, if_false]
  have heq : 32 * (0.3 : ℚ) * (0.110 + 0.020) * s2 / 0.32 - 1 + 0.5 =
      39 / 10 * s2 - 1 / 2 := by
    norm_num
    ring
  rw [heq]
  have hpos : ¬ (39 / 10 * s2 - 1 / 2 < (0 : ℚ)) := by
    push_neg
    nlinarith
  rw [if_neg hpos]
  have hfl : ⌊(39 / 10 * s2 - 1 / 2 : ℚ)⌋ < (16 : ℤ) :=
    Int.floor_lt.mpr (by push_cast; linarith)
  omega

/-- C7: with run and hold currents in `(0, 2]` amps (and `math.sqrt(2.)`
abstracted as `s2` in an interval containing its IEEE value),
`get_config_current` returns `vsense = true` exactly when both irun and
ihold computed at low sensitivity (vref 0.32) are below 16, in which case
both are recomputed at high sensitivity (vref 0.18); the returned scales
always lie in `[0, 31]`; and `run = hold = 0.3` with `sense_resistor =
0.110` escalates to high sensitivity. -/
theorem c7_get_config_current (s2 run hold sr : ℚ)
    (hs2a : 1.41 ≤ s2) (hs2b : s2 ≤ 1.42)
    (hrun0 : 0 < run) (hrun2 : run ≤ 2)
    (hhold0 : 0 < hold) (hhold2 : hold ≤ 2) (hsr : 0 < sr) :
    ((get_config_current s2 run hold sr).1 = true ↔
      current_bits s2 run sr false < 16 ∧ current_bits s2 hold sr false < 16) ∧
    ((get_config_current s2 run hold sr).1 = true →
      (get_config_current s2 run hold sr).2.1 = current_bits s2 run sr true ∧
      (get_config_current s2 run hold sr).2.2 = current_bits s2 hold sr true) ∧
    0 ≤ (get_config_current s2 run hold sr).2.1 ∧
    (get_config_current s2 run hold sr).2.1 ≤ 31 ∧
    0 ≤ (get_config_current s2 run hold sr).2.2 ∧
    (get_config_current s2 run hold sr).2.2 ≤ 31 ∧
    (get_config_current s2 0.3 0.3 0.110).1 = true := by
  have hesc := current_bits_escalation_low s2 hs2a hs2b
  have hb1 := current_bits_bounds s2 run sr false
  have hb2 := current_bits_bounds s2 hold sr false
  have hb3 := current_bits_bounds s2 run sr true
  have hb4 := current_bits_bounds s2 hold sr true
  by_cases h : current_bits s2 run sr false < 16 ∧ current_bits s2 hold sr false < 16
  · simp only [get_config_current, if_pos h, if_pos (And.intro hesc hesc)]
    exact ⟨by simp [h], by simp, hb3.1, hb3.2, hb4.1, hb4.2, trivial⟩
  · simp only [get_config_current, if_neg h, if_pos (And.intro hesc hesc)]
    exact ⟨by simp [h], by simp, hb1.1, hb1.2, hb2.1, hb2.2, trivial⟩

/-- C7 witness: the statement instantiated with `s2` equal to the exact
rational value of the IEEE double `math.sqrt(2.)`, run and hold currents of
1 A and a sense resistor of 0.11 Ω. -/
theorem c7_witness :
    ((1.41 : ℚ) ≤ 1.4142135623730951 ∧ (1.4142135623730951 : ℚ) ≤ 1.42 ∧
      (0 : ℚ) < 1 ∧ (1 : ℚ) ≤ 2 ∧ (0 : ℚ) < 0.11) ∧
    (((get_config_current 1.4142135623730951 1 1 0.11).1 = true ↔
        current_bits 1.4142135623730951 1 0.11 false < 16 ∧
        current_bits 1.4142135623730951 1 0.11 false < 16) ∧
      ((get_config_current 1.4142135623730951 1 1 0.11).1 = true →
        (get_config_current 1.4142135623730951 1 1 0.11).2.1 =
          current_bits 1.4142135623730951 1 0.11 true ∧
        (get_config_current 1.4142135623730951 1 1 0.11).2.2 =
          current_bits 1.4142135623730951 1 0.11 true) ∧
      0 ≤ (get_config_current 1.4142135623730951 1 1 0.11).2.1 ∧
      (get_config_current 1.4142135623730951 1 1 0.11).2.1 ≤ 31 ∧
      0 ≤ (get_config_current 1.4142135623730951 1 1 0.11).2.2 ∧
      (get_config_current 1.4142135623730951 1 1 0.11).2.2 ≤ 31 ∧
      (get_config_current 1.4142135623730951 0.3 0.3 0.110).1 = true) :=
  ⟨⟨by norm_num, by norm_num, by norm_num, by norm_num, by norm_num⟩,
    c7_get_config_current 1.4142135623730951 1 1 0.11
      (by norm_num) (by norm_num) (by norm_num) (by norm_num)
      (by norm_num) (by norm_num) (by norm_num)⟩

end Tmc2130
